import Mathlib

/-!
Shallow embedding of the Arch Network crowdfunding-pool contract
(src/src/lib.rs together with the mock SDK in src/arch_program/src/lib.rs).

Rust HashMaps are modelled as association lists whose list order is the
map's iteration order: get / insert / remove / contains_key act on the
first matching key, insert of a fresh key appends.  u64 arithmetic wraps
modulo 2^64 (release-profile Rust), made explicit with add64 / sub64.
Byte strings (Rust String / Pubkey) are lists of byte values.
-/

deriving instance DecidableEq for Except

/-- Keyed lookup, models HashMap::get. -/
def getVal {α β : Type} [DecidableEq α] : List (α × β) → α → Option β
  | [], _ => none
  | (k, v) :: t, k0 => if k = k0 then some v else getVal t k0

/-- Key membership, models HashMap::contains_key. -/
def containsKey {α β : Type} [DecidableEq α] : List (α × β) → α → Bool
  | [], _ => false
  | (k, _) :: t, k0 => if k = k0 then true else containsKey t k0

/-- Keyed insert, models HashMap::insert: replace in place, else append. -/
def insertMap {α β : Type} [DecidableEq α] : List (α × β) → α → β → List (α × β)
  | [], k0, v0 => [(k0, v0)]
  | (k, v) :: t, k0, v0 =>
      if k = k0 then (k0, v0) :: t else (k, v) :: insertMap t k0 v0

/-- Keyed removal, models HashMap::remove. -/
def removeMap {α β : Type} [DecidableEq α] : List (α × β) → α → List (α × β)
  | [], _ => []
  | (k, v) :: t, k0 => if k = k0 then t else (k, v) :: removeMap t k0

/-- In-place update of the value at a key, models HashMap::get_mut. -/
def modifyMap {α β : Type} [DecidableEq α] : List (α × β) → α → (β → β) → List (α × β)
  | [], _, _ => []
  | (k, v) :: t, k0, f =>
      if k = k0 then (k, f v) :: modifyMap t k0 f else (k, v) :: modifyMap t k0 f

/-- Wrapping u64 addition. -/
def add64 (a b : Nat) : Nat := (a + b) % 2 ^ 64

/-- Wrapping u64 subtraction (operands below 2^64). -/
def sub64 (a b : Nat) : Nat := (a + (2 ^ 64 - b % 2 ^ 64)) % 2 ^ 64

/-- A 32-byte account identity (arch_program::pubkey::Pubkey), as raw bytes. -/
abbrev Pubkey := List Nat

/-- A Rust String, as its UTF-8 bytes. -/
abbrev ByteStr := List Nat

/-- arch_program::program_error::ProgramError. -/
inductive ProgErr : Type where
  | Custom : Nat → ProgErr
  | InvalidInstructionData : ProgErr
  | IncorrectProgramId : ProgErr
  | NotEnoughAccountKeys : ProgErr
deriving DecidableEq, Repr

/-- ContractError from src/src/lib.rs. -/
inductive ContractError : Type where
  | PoolNotInitialized
  | PoolAlreadyInitialized
  | ContributionTooLow
  | ContributionTooHigh
  | PoolDeadlinePassed
  | VotingPeriodNotEnded
  | VotingPeriodEnded
  | ContributorNotFound
  | InsufficientContributionForProposal
  | InsufficientContributionForVoting
  | ProposalNotFound
  | AlreadyVoted
  | InvalidBitcoinAddress
  | NoProposalsSubmitted
  | NoVotesCast
  | QuorumNotReached
  | TransferAlreadyExecuted
  | ProgramError : ProgErr → ContractError
  | LockTimeError
  | IoError : String → ContractError
deriving DecidableEq, Repr

/-- PoolParams (u64 amounts, i64 Unix timestamps, u8 quorum percentage). -/
structure PoolParams : Type where
  min_contribution : Nat
  max_contribution : Nat
  contribution_deadline : Int
  voting_deadline : Int
  proposal_threshold : Nat
  voting_threshold : Nat
  quorum_percentage : Nat
deriving DecidableEq, Repr

/-- Proposal from src/src/lib.rs. -/
structure Proposal : Type where
  id : Nat
  proposer : Pubkey
  bitcoin_address : ByteStr
  description : ByteStr
  votes : Nat
deriving DecidableEq, Repr

/-- PoolState phase tag. -/
inductive PoolState : Type where
  | Uninitialized
  | ContributionPhase
  | VotingPhase
  | ExecutionPhase
  | Completed
deriving DecidableEq, Repr

/-- Contract aggregate state from src/src/lib.rs. -/
structure Contract : Type where
  state : PoolState
  params : Option PoolParams
  total_balance : Nat
  contributions : List (Pubkey × Nat)
  proposals : List (Nat × Proposal)
  votes : List (Pubkey × Nat)
  next_proposal_id : Nat
  winning_proposal : Option Nat
  transfer_executed : Bool
deriving DecidableEq, Repr

/-- Default::default() for Contract. -/
def Contract.defaultState : Contract :=
  { state := PoolState.Uninitialized
    params := none
    total_balance := 0
    contributions := []
    proposals := []
    votes := []
    next_proposal_id := 1
    winning_proposal := none
    transfer_executed := false }

/-- arch_program::account::AccountInfo, reduced to the key (the only field
the contract logic reads through next_account_info in the mock SDK). -/
structure AccountInfo : Type where
  key : Pubkey
deriving DecidableEq, Repr

/-- is_valid_bitcoin_address: the address starts with "1", "3" or "bc1"
(bytes 49, 51, and 98 99 49). -/
def is_valid_bitcoin_address (address : ByteStr) : Bool :=
  [49].isPrefixOf address || [51].isPrefixOf address || [98, 99, 49].isPrefixOf address

/-- Contract::initialize_pool. -/
def initialize_pool (c : Contract) (params : PoolParams) :
    Contract × Except ContractError Unit :=
  if c.state ≠ PoolState.Uninitialized then
    (c, Except.error ContractError.PoolAlreadyInitialized)
  else if params.min_contribution ≥ params.max_contribution then
    (c, Except.error ContractError.ContributionTooLow)
  else if params.contribution_deadline ≥ params.voting_deadline then
    (c, Except.error ContractError.PoolDeadlinePassed)
  else if params.quorum_percentage > 100 then
    (c, Except.error ContractError.QuorumNotReached)
  else
    ({ c with params := some params, state := PoolState.ContributionPhase },
     Except.ok ())

/-- Contract::contribute; now is the Utc::now().timestamp() snapshot. -/
def contribute (c : Contract) (now : Int) (contributor : Pubkey) (amount : Nat) :
    Contract × Except ContractError Unit :=
  match c.params with
  | none => (c, Except.error ContractError.PoolNotInitialized)
  | some params =>
    if c.state ≠ PoolState.ContributionPhase then
      (c, Except.error ContractError.PoolDeadlinePassed)
    else if now > params.contribution_deadline then
      ({ c with state := PoolState.VotingPhase },
       Except.error ContractError.PoolDeadlinePassed)
    else if amount < params.min_contribution then
      (c, Except.error ContractError.ContributionTooLow)
    else if amount > params.max_contribution then
      (c, Except.error ContractError.ContributionTooHigh)
    else
      let current_contribution := (getVal c.contributions contributor).getD 0
      let new_total := add64 current_contribution amount
      if new_total > params.max_contribution then
        (c, Except.error ContractError.ContributionTooHigh)
      else
        ({ c with contributions := insertMap c.contributions contributor new_total,
                  total_balance := add64 c.total_balance amount },
         Except.ok ())

/-- The body of Contract::submit_proposal after its phase gate: the
voting-deadline check, threshold and address checks, then the insertion. -/
def submit_proposal_checks (c1 : Contract) (params : PoolParams) (now : Int)
    (proposer : Pubkey) (bitcoin_address description : ByteStr) :
    Contract × Except ContractError Nat :=
  if now > params.voting_deadline then
    ({ c1 with state := PoolState.ExecutionPhase },
     Except.error ContractError.VotingPeriodEnded)
  else if (getVal c1.contributions proposer).getD 0 < params.proposal_threshold then
    (c1, Except.error ContractError.InsufficientContributionForProposal)
  else if ¬ is_valid_bitcoin_address bitcoin_address then
    (c1, Except.error ContractError.InvalidBitcoinAddress)
  else
    let proposal_id := c1.next_proposal_id
    ({ c1 with next_proposal_id := add64 proposal_id 1,
               proposals := insertMap c1.proposals proposal_id
                 { id := proposal_id, proposer := proposer,
                   bitcoin_address := bitcoin_address,
                   description := description, votes := 0 } },
     Except.ok proposal_id)

/-- Contract::submit_proposal; both clock reads in the Rust body happen
within one call and are modelled by the single snapshot now. -/
def submit_proposal (c : Contract) (now : Int) (proposer : Pubkey)
    (bitcoin_address description : ByteStr) :
    Contract × Except ContractError Nat :=
  match c.params with
  | none => (c, Except.error ContractError.PoolNotInitialized)
  | some params =>
    if c.state ≠ PoolState.VotingPhase ∧ ¬ now > params.contribution_deadline then
      (c, Except.error ContractError.PoolDeadlinePassed)
    else if c.state ≠ PoolState.VotingPhase then
      submit_proposal_checks { c with state := PoolState.VotingPhase } params now
        proposer bitcoin_address description
    else
      submit_proposal_checks c params now proposer bitcoin_address description

/-- The body of Contract::cast_vote after its phase gate: threshold,
proposal-existence and double-vote checks, then the vote recording. -/
def cast_vote_checks (c1 : Contract) (params : PoolParams) (voter : Pubkey)
    (proposal_id : Nat) : Contract × Except ContractError Unit :=
  if (getVal c1.contributions voter).getD 0 < params.voting_threshold then
    (c1, Except.error ContractError.InsufficientContributionForVoting)
  else if ¬ containsKey c1.proposals proposal_id then
    (c1, Except.error ContractError.ProposalNotFound)
  else if containsKey c1.votes voter then
    (c1, Except.error ContractError.AlreadyVoted)
  else
    ({ c1 with votes := insertMap c1.votes voter proposal_id,
               proposals := modifyMap c1.proposals proposal_id
                 (fun p => { p with votes := add64 p.votes 1 }) },
     Except.ok ())

/-- Contract::cast_vote. -/
def cast_vote (c : Contract) (now : Int) (voter : Pubkey) (proposal_id : Nat) :
    Contract × Except ContractError Unit :=
  match c.params with
  | none => (c, Except.error ContractError.PoolNotInitialized)
  | some params =>
    if c.state ≠ PoolState.VotingPhase then
      if now > params.contribution_deadline ∧ now ≤ params.voting_deadline then
        cast_vote_checks { c with state := PoolState.VotingPhase } params voter proposal_id
      else if now > params.voting_deadline then
        ({ c with state := PoolState.ExecutionPhase },
         Except.error ContractError.VotingPeriodEnded)
      else
        (c, Except.error ContractError.PoolDeadlinePassed)
    else cast_vote_checks c params voter proposal_id

/-- The winner-selection fold of Contract::execute_transfer: running
(winning_proposal_id, max_votes) accumulator starting from (0, 0),
replaced only on a strictly greater vote count. -/
def selectWinner (l : List (Nat × Proposal)) : Nat × Nat :=
  l.foldl (fun acc kp => if kp.2.votes > acc.2 then (kp.1, kp.2.votes) else acc) (0, 0)

/-- The body of Contract::execute_transfer after its phase gate.  The
mock SDK collaborators (get_account_script_pubkey,
get_bitcoin_block_height, LockTime::from_height, set_transaction_to_sign,
add_state_transition) always succeed; the only fallible host step is
next_account_info, which fails on an empty account list.  The f64 quorum
comparison (voters/contributors) < quorum/100 is the exact rational
comparison voters * 100 < contributors * quorum for all representable map
sizes (IEEE division is correctly rounded and the two sides, when unequal
as rationals, differ by far more than one ulp), including
contributors = 0 where the f64 test on +infinity is also false. -/
def execute_transfer_checks (c1 : Contract) (params : PoolParams)
    (accounts : List AccountInfo) : Contract × Except ContractError Unit :=
  if c1.transfer_executed then
    (c1, Except.error ContractError.TransferAlreadyExecuted)
  else if c1.proposals.isEmpty then
    (c1, Except.error ContractError.NoProposalsSubmitted)
  else if c1.votes.isEmpty then
    (c1, Except.error ContractError.NoVotesCast)
  else if c1.votes.length * 100 < c1.contributions.length * params.quorum_percentage then
    (c1, Except.error ContractError.QuorumNotReached)
  else if (selectWinner c1.proposals).1 = 0 then
    (c1, Except.error ContractError.NoVotesCast)
  else
    match getVal c1.proposals (selectWinner c1.proposals).1 with
    | none => (c1, Except.error ContractError.ProposalNotFound)
    | some _ =>
      match accounts.head? with
      | none => (c1, Except.error (ContractError.ProgramError ProgErr.NotEnoughAccountKeys))
      | some _ =>
        ({ c1 with winning_proposal := some (selectWinner c1.proposals).1,
                   transfer_executed := true,
                   state := PoolState.Completed },
         Except.ok ())

/-- Contract::execute_transfer. -/
def execute_transfer (c : Contract) (now : Int) (accounts : List AccountInfo) :
    Contract × Except ContractError Unit :=
  match c.params with
  | none => (c, Except.error ContractError.PoolNotInitialized)
  | some params =>
    if c.state ≠ PoolState.ExecutionPhase ∧ now ≤ params.voting_deadline then
      (c, Except.error ContractError.VotingPeriodNotEnded)
    else if c.state ≠ PoolState.ExecutionPhase then
      execute_transfer_checks { c with state := PoolState.ExecutionPhase } params accounts
    else
      execute_transfer_checks c params accounts

/-- Contract::emergency_withdraw (reads no clock). -/
def emergency_withdraw (c : Contract) (contributor : Pubkey) :
    Contract × Except ContractError Nat :=
  match c.params with
  | none => (c, Except.error ContractError.PoolNotInitialized)
  | some _ =>
    if c.state ≠ PoolState.ContributionPhase then
      (c, Except.error ContractError.PoolDeadlinePassed)
    else
      match getVal c.contributions contributor with
      | none => (c, Except.error ContractError.ContributorNotFound)
      | some amount =>
        ({ c with contributions := removeMap c.contributions contributor,
                  total_balance := sub64 c.total_balance amount },
         Except.ok amount)

/-- Ordinal position of a phase in the five-state lifecycle. -/
def stateOrd : PoolState → Nat
  | PoolState.Uninitialized => 0
  | PoolState.ContributionPhase => 1
  | PoolState.VotingPhase => 2
  | PoolState.ExecutionPhase => 3
  | PoolState.Completed => 4

/-- The order Uninitialized < ContributionPhase < VotingPhase <
ExecutionPhase < Completed. -/
def stateLe (a b : PoolState) : Prop := stateOrd a ≤ stateOrd b

instance (a b : PoolState) : Decidable (stateLe a b) := by
  unfold stateLe; infer_instance

/-- Reachability of a Contract aggregate together with the current clock:
the pool starts as Default::default() at any time, the clock only moves
forward, and every clock-reading operation reads the current time. -/
inductive ReachableAt : Contract → Int → Prop where
  | base : ∀ t : Int, ReachableAt Contract.defaultState t
  | tick : ∀ {c : Contract} {t : Int} (t' : Int), ReachableAt c t → t ≤ t' →
      ReachableAt c t'
  | initp : ∀ {c : Contract} {t : Int} (p : PoolParams), ReachableAt c t →
      ReachableAt (initialize_pool c p).1 t
  | contrib : ∀ {c : Contract} {t : Int} (k : Pubkey) (a : Nat), ReachableAt c t →
      ReachableAt (contribute c t k a).1 t
  | subp : ∀ {c : Contract} {t : Int} (k : Pubkey) (ba d : ByteStr), ReachableAt c t →
      ReachableAt (submit_proposal c t k ba d).1 t
  | vote : ∀ {c : Contract} {t : Int} (k : Pubkey) (pid : Nat), ReachableAt c t →
      ReachableAt (cast_vote c t k pid).1 t
  | exec : ∀ {c : Contract} {t : Int} (accts : List AccountInfo), ReachableAt c t →
      ReachableAt (execute_transfer c t accts).1 t
  | withdraw : ∀ {c : Contract} {t : Int} (k : Pubkey), ReachableAt c t →
      ReachableAt (emergency_withdraw c k).1 t

/-! Borsh encoding of the persisted state, byte for byte
(impl BorshSerialize / BorshDeserialize in src/src/lib.rs and the
Pubkey impls in src/arch_program/src/lib.rs).  Bytes are Nat values. -/

/-- Little-endian fixed-width encoding of an unsigned integer. -/
def natLE : Nat → Nat → List Nat
  | 0, _ => []
  | w + 1, n => n % 256 :: natLE w (n / 256)

/-- Little-endian value of a byte list. -/
def fromLE : List Nat → Nat
  | [] => 0
  | b :: bs => b + 256 * fromLE bs

/-- Split off w bytes from the front of the stream, or fail. -/
def readN (w : Nat) (bs : List Nat) : Option (List Nat × List Nat) :=
  if w ≤ bs.length then some (bs.take w, bs.drop w) else none

def encU8 (n : Nat) : List Nat := natLE 1 n

def encU32 (n : Nat) : List Nat := natLE 4 n

def encU64 (n : Nat) : List Nat := natLE 8 n

/-- i64, two's-complement little-endian. -/
def encI64 (x : Int) : List Nat := natLE 8 (x % (2 ^ 64 : Int)).toNat

def encBool (b : Bool) : List Nat := [if b then 1 else 0]

/-- Pubkey serializes as its 32 raw bytes. -/
def encPubkey (k : Pubkey) : List Nat := k

/-- String: u32 byte-length prefix then the raw bytes. -/
def encStr (s : ByteStr) : List Nat := encU32 s.length ++ s

/-- Derived borsh enum encoding: u8 variant ordinal. -/
def encState : PoolState → List Nat
  | PoolState.Uninitialized => [0]
  | PoolState.ContributionPhase => [1]
  | PoolState.VotingPhase => [2]
  | PoolState.ExecutionPhase => [3]
  | PoolState.Completed => [4]

/-- Option: 1-byte discriminant 0 / 1 then the payload when present. -/
def encOptionBy {α : Type} (enc : α → List Nat) : Option α → List Nat
  | none => [0]
  | some a => 1 :: enc a

/-- Derived borsh struct encoding of PoolParams, fields in order. -/
def encPoolParams (p : PoolParams) : List Nat :=
  encU64 p.min_contribution ++ encU64 p.max_contribution ++
  encI64 p.contribution_deadline ++ encI64 p.voting_deadline ++
  encU64 p.proposal_threshold ++ encU64 p.voting_threshold ++
  encU8 p.quorum_percentage

/-- impl BorshSerialize for Proposal. -/
def encProposal (pr : Proposal) : List Nat :=
  encU64 pr.id ++ encPubkey pr.proposer ++ encStr pr.bitcoin_address ++
  encStr pr.description ++ encU64 pr.votes

/-- The (key, value) pair section of a serialized map, in iteration order. -/
def encPairsBody {κ ν : Type} (eK : κ → List Nat) (eV : ν → List Nat) :
    List (κ × ν) → List Nat
  | [] => []
  | kv :: t => eK kv.1 ++ eV kv.2 ++ encPairsBody eK eV t

/-- serialize_pubkey_map: u32 count then the pairs. -/
def serialize_pubkey_map (m : List (Pubkey × Nat)) : List Nat :=
  encU32 m.length ++ encPairsBody encPubkey encU64 m

/-- serialize_proposal_map: u32 count then the pairs. -/
def serialize_proposal_map (m : List (Nat × Proposal)) : List Nat :=
  encU32 m.length ++ encPairsBody encU64 encProposal m

/-- impl BorshSerialize for Contract, fields in source order. -/
def encContract (c : Contract) : List Nat :=
  encState c.state ++ encOptionBy encPoolParams c.params ++
  encU64 c.total_balance ++ serialize_pubkey_map c.contributions ++
  serialize_proposal_map c.proposals ++ serialize_pubkey_map c.votes ++
  encU64 c.next_proposal_id ++ encOptionBy encU64 c.winning_proposal ++
  encBool c.transfer_executed

def dU8 : List Nat → Option (Nat × List Nat)
  | [] => none
  | b :: r => some (b, r)

def dFixed (w : Nat) (bs : List Nat) : Option (Nat × List Nat) :=
  match readN w bs with
  | none => none
  | some (h, r) => some (fromLE h, r)

def dU32 (bs : List Nat) : Option (Nat × List Nat) := dFixed 4 bs

def dU64 (bs : List Nat) : Option (Nat × List Nat) := dFixed 8 bs

def dI64 (bs : List Nat) : Option (Int × List Nat) :=
  match dFixed 8 bs with
  | none => none
  | some (n, r) => some (if n < 2 ^ 63 then (n : Int) else (n : Int) - 2 ^ 64, r)

def dBool : List Nat → Option (Bool × List Nat)
  | 0 :: r => some (false, r)
  | 1 :: r => some (true, r)
  | _ => none

def dPubkey (bs : List Nat) : Option (Pubkey × List Nat) := readN 32 bs

def dStr (bs : List Nat) : Option (ByteStr × List Nat) :=
  match dU32 bs with
  | none => none
  | some (n, r) => readN n r

def dState : List Nat → Option (PoolState × List Nat)
  | 0 :: r => some (PoolState.Uninitialized, r)
  | 1 :: r => some (PoolState.ContributionPhase, r)
  | 2 :: r => some (PoolState.VotingPhase, r)
  | 3 :: r => some (PoolState.ExecutionPhase, r)
  | 4 :: r => some (PoolState.Completed, r)
  | _ => none

def dOptionBy {α : Type} (d : List Nat → Option (α × List Nat)) :
    List Nat → Option (Option α × List Nat)
  | 0 :: r => some (none, r)
  | 1 :: r =>
    match d r with
    | none => none
    | some (a, r2) => some (some a, r2)
  | _ => none

def dPoolParams (bs : List Nat) : Option (PoolParams × List Nat) :=
  match dU64 bs with
  | none => none
  | some (minc, r1) =>
    match dU64 r1 with
    | none => none
    | some (maxc, r2) =>
      match dI64 r2 with
      | none => none
      | some (cd, r3) =>
        match dI64 r3 with
        | none => none
        | some (vd, r4) =>
          match dU64 r4 with
          | none => none
          | some (pt, r5) =>
            match dU64 r5 with
            | none => none
            | some (vt, r6) =>
              match dU8 r6 with
              | none => none
              | some (q, r7) =>
                some ({ min_contribution := minc, max_contribution := maxc,
                        contribution_deadline := cd, voting_deadline := vd,
                        proposal_threshold := pt, voting_threshold := vt,
                        quorum_percentage := q }, r7)

def dProposal (bs : List Nat) : Option (Proposal × List Nat) :=
  match dU64 bs with
  | none => none
  | some (i, r1) =>
    match dPubkey r1 with
    | none => none
    | some (pk, r2) =>
      match dStr r2 with
      | none => none
      | some (ba, r3) =>
        match dStr r3 with
        | none => none
        | some (de, r4) =>
          match dU64 r4 with
          | none => none
          | some (v, r5) =>
            some ({ id := i, proposer := pk, bitcoin_address := ba,
                    description := de, votes := v }, r5)

/-- The deserialization loop of the two map decoders: read count pairs,
inserting each into the map under construction in encountered order. -/
def dPairsBy {κ ν : Type} [DecidableEq κ]
    (dK : List Nat → Option (κ × List Nat)) (dV : List Nat → Option (ν × List Nat)) :
    Nat → List (κ × ν) → List Nat → Option (List (κ × ν) × List Nat)
  | 0, m, bs => some (m, bs)
  | n + 1, m, bs =>
    match dK bs with
    | none => none
    | some (k, r1) =>
      match dV r1 with
      | none => none
      | some (v, r2) => dPairsBy dK dV n (insertMap m k v) r2

def deserialize_pubkey_map (bs : List Nat) : Option (List (Pubkey × Nat) × List Nat) :=
  match dU32 bs with
  | none => none
  | some (n, r) => dPairsBy dPubkey dU64 n [] r

def deserialize_proposal_map (bs : List Nat) : Option (List (Nat × Proposal) × List Nat) :=
  match dU32 bs with
  | none => none
  | some (n, r) => dPairsBy dU64 dProposal n [] r

/-- impl BorshDeserialize for Contract, fields decoded in source order. -/
def dContract (bs : List Nat) : Option (Contract × List Nat) :=
  match dState bs with
  | none => none
  | some (st, r1) =>
    match dOptionBy dPoolParams r1 with
    | none => none
    | some (pa, r2) =>
      match dU64 r2 with
      | none => none
      | some (tb, r3) =>
        match deserialize_pubkey_map r3 with
        | none => none
        | some (co, r4) =>
          match deserialize_proposal_map r4 with
          | none => none
          | some (pr, r5) =>
            match deserialize_pubkey_map r5 with
            | none => none
            | some (vo, r6) =>
              match dU64 r6 with
              | none => none
              | some (np, r7) =>
                match dOptionBy dU64 r7 with
                | none => none
                | some (wp, r8) =>
                  match dBool r8 with
                  | none => none
                  | some (te, r9) =>
                    some ({ state := st, params := pa, total_balance := tb,
                            contributions := co, proposals := pr, votes := vo,
                            next_proposal_id := np, winning_proposal := wp,
                            transfer_executed := te }, r9)

/-- Machine-width well-formedness of PoolParams: u64 / i64 / u8 ranges. -/
def WFparams (p : PoolParams) : Prop :=
  p.min_contribution < 2 ^ 64 ∧ p.max_contribution < 2 ^ 64 ∧
  -(2 ^ 63) ≤ p.contribution_deadline ∧ p.contribution_deadline < 2 ^ 63 ∧
  -(2 ^ 63) ≤ p.voting_deadline ∧ p.voting_deadline < 2 ^ 63 ∧
  p.proposal_threshold < 2 ^ 64 ∧ p.voting_threshold < 2 ^ 64 ∧
  p.quorum_percentage < 2 ^ 8

def WFoptParams : Option PoolParams → Prop
  | none => True
  | some p => WFparams p

def WFproposal (pr : Proposal) : Prop :=
  pr.id < 2 ^ 64 ∧ pr.proposer.length = 32 ∧
  pr.bitcoin_address.length < 2 ^ 32 ∧ pr.description.length < 2 ^ 32 ∧
  pr.votes < 2 ^ 64

def WFoptU64 : Option Nat → Prop
  | none => True
  | some n => n < 2 ^ 64

/-- Well-formedness every Contract held by the Rust program has by
construction: u64 / u32 machine-width bounds, 32-byte identities, and
uniqueness of HashMap keys. -/
def SerWF (c : Contract) : Prop :=
  WFoptParams c.params ∧ c.total_balance < 2 ^ 64 ∧ c.next_proposal_id < 2 ^ 64 ∧
  c.contributions.length < 2 ^ 32 ∧
  (∀ kv ∈ c.contributions, kv.1.length = 32 ∧ kv.2 < 2 ^ 64) ∧
  (c.contributions.map Prod.fst).Nodup ∧
  c.proposals.length < 2 ^ 32 ∧
  (∀ kv ∈ c.proposals, kv.1 < 2 ^ 64 ∧ WFproposal kv.2) ∧
  (c.proposals.map Prod.fst).Nodup ∧
  c.votes.length < 2 ^ 32 ∧
  (∀ kv ∈ c.votes, kv.1.length = 32 ∧ kv.2 < 2 ^ 64) ∧
  (c.votes.map Prod.fst).Nodup ∧
  WFoptU64 c.winning_proposal

instance (p : PoolParams) : Decidable (WFparams p) := by
  unfold WFparams
  infer_instance

instance (pr : Proposal) : Decidable (WFproposal pr) := by
  unfold WFproposal
  infer_instance

instance : (o : Option PoolParams) → Decidable (WFoptParams o)
  | none => Decidable.isTrue trivial
  | some p => by
      simp only [WFoptParams]
      infer_instance

instance : (o : Option Nat) → Decidable (WFoptU64 o)
  | none => Decidable.isTrue trivial
  | some n => by
      simp only [WFoptU64]
      infer_instance

instance (c : Contract) : Decidable (SerWF c) := by
  unfold SerWF
  infer_instance

/-! Concrete instances used by witnesses and counterexamples: the happy
path of spec section 8 on small timestamps. -/

def params0 : PoolParams :=
  { min_contribution := 1, max_contribution := 1000,
    contribution_deadline := 100, voting_deadline := 200,
    proposal_threshold := 1, voting_threshold := 1, quorum_percentage := 100 }

def keyA : Pubkey := List.replicate 32 1

def keyB : Pubkey := List.replicate 32 2

def addr1 : ByteStr := [49]

def desc1 : ByteStr := [100]

def acct : AccountInfo := { key := keyB }

def cex1 : Contract := (initialize_pool Contract.defaultState params0).1

def cex2 : Contract := (contribute cex1 50 keyA 10).1

def cex3 : Contract := (submit_proposal cex2 150 keyA addr1 desc1).1

def cex4 : Contract := (cast_vote cex3 150 keyA 1).1

def cex5 : Contract := (execute_transfer cex4 250 [acct]).1
lemma getVal_eq_none_of_not_mem {α β : Type} [DecidableEq α]
    {m : List (α × β)} {k : α} (h : k ∉ m.map Prod.fst) : getVal m k = none := by
  induction m with
  | nil => rfl
  | cons kv t ih =>
    simp only [List.map_cons, List.mem_cons] at h
    push_neg at h
    cases kv with
    | mk k1 v1 =>
      simp only [getVal]
      rw [if_neg (by simpa using fun e => h.1 e.symm)]
      exact ih h.2

lemma getVal_removeMap_self {α β : Type} [DecidableEq α]
    (m : List (α × β)) (k : α) (h : (m.map Prod.fst).Nodup) :
    getVal (removeMap m k) k = none := by
  induction m with
  | nil => rfl
  | cons kv t ih =>
    cases kv with
    | mk k1 v1 =>
      simp only [List.map_cons, List.nodup_cons] at h
      simp only [removeMap]
      by_cases he : k1 = k
      · rw [if_pos he]
        exact getVal_eq_none_of_not_mem (he ▸ h.1)
      · rw [if_neg he]
        simp only [getVal]
        rw [if_neg he]
        exact ih h.2

lemma sub64_exact {a b : Nat} (hb : b ≤ a) (ha : a < 2 ^ 64) : sub64 a b = a - b := by
  unfold sub64
  have hblt : b < 2 ^ 64 := lt_of_le_of_lt hb ha
  rw [Nat.mod_eq_of_lt hblt]
  omega

/-- C3: on an initialized pool in ContributionPhase, a contribution
attempted after the contribution deadline advances the phase to
VotingPhase, fails with PoolDeadlinePassed, and changes nothing else. -/
theorem contribute_past_deadline (c : Contract) (p : PoolParams) (now : Int)
    (k : Pubkey) (a : Nat) (h1 : c.params = some p)
    (h2 : c.state = PoolState.ContributionPhase)
    (h3 : now > p.contribution_deadline) :
    contribute c now k a =
      ({ c with state := PoolState.VotingPhase },
       Except.error ContractError.PoolDeadlinePassed) := by
  simp [contribute, h1, h2, h3]

theorem contribute_past_deadline_witness :
    contribute cex2 150 keyB 5 =
      ({ cex2 with state := PoolState.VotingPhase },
       Except.error ContractError.PoolDeadlinePassed) :=
  contribute_past_deadline cex2 params0 150 keyB 5 (by decide) (by decide) (by decide)

/-- C6: valid params on an Uninitialized pool initialize it exactly once. -/
theorem initialize_pool_once (c : Contract) (p : PoolParams)
    (h0 : c.state = PoolState.Uninitialized)
    (h1 : p.min_contribution < p.max_contribution)
    (h2 : p.contribution_deadline < p.voting_deadline)
    (h3 : p.quorum_percentage ≤ 100) :
    initialize_pool c p =
      ({ c with params := some p, state := PoolState.ContributionPhase },
       Except.ok ()) ∧
    ∀ q : PoolParams,
      initialize_pool (initialize_pool c p).1 q =
        ((initialize_pool c p).1,
         Except.error ContractError.PoolAlreadyInitialized) := by
  have e : initialize_pool c p =
      ({ c with params := some p, state := PoolState.ContributionPhase },
       Except.ok ()) := by
    unfold initialize_pool
    rw [if_neg (by simp [h0]), if_neg (by omega), if_neg (by omega), if_neg (by omega)]
  refine ⟨e, fun q => ?_⟩
  rw [e]
  simp [initialize_pool]

theorem initialize_pool_once_witness :
    initialize_pool Contract.defaultState params0 =
      ({ Contract.defaultState with
          params := some params0,
          state := PoolState.ContributionPhase }, Except.ok ()) ∧
    ∀ q : PoolParams,
      initialize_pool (initialize_pool Contract.defaultState params0).1 q =
        ((initialize_pool Contract.defaultState params0).1,
         Except.error ContractError.PoolAlreadyInitialized) :=
  initialize_pool_once Contract.defaultState params0 (by decide) (by decide)
    (by decide) (by decide)

/-- C10: invalid params on an Uninitialized pool are rejected, in check
order, with error variants borrowed from unrelated operations, and the
aggregate is left unchanged. -/
theorem initialize_pool_invalid (c : Contract) (p : PoolParams)
    (h0 : c.state = PoolState.Uninitialized) :
    (p.min_contribution ≥ p.max_contribution →
      initialize_pool c p = (c, Except.error ContractError.ContributionTooLow)) ∧
    (p.min_contribution < p.max_contribution →
      p.contribution_deadline ≥ p.voting_deadline →
      initialize_pool c p = (c, Except.error ContractError.PoolDeadlinePassed)) ∧
    (p.min_contribution < p.max_contribution →
      p.contribution_deadline < p.voting_deadline →
      p.quorum_percentage > 100 →
      initialize_pool c p = (c, Except.error ContractError.QuorumNotReached)) := by
  refine ⟨fun hmin => ?_, fun hmin hdl => ?_, fun hmin hdl hq => ?_⟩
  · unfold initialize_pool
    rw [if_neg (by simp [h0]), if_pos hmin]
  · unfold initialize_pool
    rw [if_neg (by simp [h0]), if_neg (by omega), if_pos hdl]
  · unfold initialize_pool
    rw [if_neg (by simp [h0]), if_neg (by omega), if_neg (by omega), if_pos hq]

theorem initialize_pool_invalid_witness :
    initialize_pool Contract.defaultState
        { params0 with min_contribution := 5, max_contribution := 5 } =
      (Contract.defaultState, Except.error ContractError.ContributionTooLow) :=
  (initialize_pool_invalid Contract.defaultState
      { params0 with min_contribution := 5, max_contribution := 5 }
      (by decide)).1 (by decide)

/-- C9: emergency_withdraw in ContributionPhase refunds the full pledge,
removes the entry, decrements total_balance by exactly that amount and
keeps the phase (no clock is read); a repeat call finds nothing; outside
ContributionPhase it rejects without touching anything. -/
theorem emergency_withdraw_spec (c : Contract) (p : PoolParams) (k : Pubkey)
    (a : Nat) (hp : c.params = some p) :
    (c.state = PoolState.ContributionPhase →
      getVal c.contributions k = some a →
      a ≤ c.total_balance → c.total_balance < 2 ^ 64 →
      emergency_withdraw c k =
        ({ c with contributions := removeMap c.contributions k,
                  total_balance := c.total_balance - a },
         Except.ok a) ∧
      ((c.contributions.map Prod.fst).Nodup →
        (emergency_withdraw (emergency_withdraw c k).1 k).2 =
          Except.error ContractError.ContributorNotFound)) ∧
    (c.state ≠ PoolState.ContributionPhase →
      emergency_withdraw c k = (c, Except.error ContractError.PoolDeadlinePassed)) := by
  constructor
  · intro hs hg hle hlt
    have e : emergency_withdraw c k =
        ({ c with contributions := removeMap c.contributions k,
                  total_balance := c.total_balance - a },
         Except.ok a) := by
      simp [emergency_withdraw, hp, hs, hg, sub64_exact hle hlt]
    refine ⟨e, fun hnd => ?_⟩
    rw [e]
    simp [emergency_withdraw, hp, hs, getVal_removeMap_self _ _ hnd]
  · intro hs
    simp [emergency_withdraw, hp, hs]

theorem emergency_withdraw_spec_witness :
    emergency_withdraw cex2 keyA =
      ({ cex2 with contributions := removeMap cex2.contributions keyA,
                   total_balance := cex2.total_balance - 10 },
       Except.ok 10) ∧
    (emergency_withdraw (emergency_withdraw cex2 keyA).1 keyA).2 =
      Except.error ContractError.ContributorNotFound := by
  have h := (emergency_withdraw_spec cex2 params0 keyA 10 (by decide)).1
    (by decide) (by decide) (by decide) (by decide)
  exact ⟨h.1, h.2 (by decide)⟩

lemma initialize_pool_shape (c : Contract) (p : PoolParams) :
    ((initialize_pool c p).1.state = c.state ∧ (initialize_pool c p).1.params = c.params) ∨
    ((initialize_pool c p).1.state = PoolState.ContributionPhase ∧
      c.state = PoolState.Uninitialized) := by
  unfold initialize_pool
  repeat' split
  all_goals simp_all

lemma contribute_shape (c : Contract) (now : Int) (k : Pubkey) (a : Nat) :
    (contribute c now k a).1.params = c.params ∧
    ((contribute c now k a).1.state = c.state ∨
      ((contribute c now k a).1.state = PoolState.VotingPhase ∧
        c.state = PoolState.ContributionPhase)) := by
  unfold contribute
  repeat' split
  all_goals simp_all
  all_goals (repeat' split)
  all_goals simp_all

lemma emergency_withdraw_shape (c : Contract) (k : Pubkey) :
    (emergency_withdraw c k).1.params = c.params ∧
    (emergency_withdraw c k).1.state = c.state := by
  unfold emergency_withdraw
  repeat' split
  all_goals simp_all

lemma submit_proposal_shape (c : Contract) (now : Int) (k : Pubkey) (ba d : ByteStr) :
    (submit_proposal c now k ba d).1.params = c.params ∧
    ((submit_proposal c now k ba d).1.state = c.state ∨
      (submit_proposal c now k ba d).1.state = PoolState.VotingPhase ∨
      ((submit_proposal c now k ba d).1.state = PoolState.ExecutionPhase ∧
        ∃ p, c.params = some p ∧ now > p.voting_deadline)) := by
  unfold submit_proposal submit_proposal_checks
  repeat' split
  all_goals simp_all

lemma cast_vote_shape (c : Contract) (now : Int) (k : Pubkey) (pid : Nat) :
    (cast_vote c now k pid).1.params = c.params ∧
    ((cast_vote c now k pid).1.state = c.state ∨
      (cast_vote c now k pid).1.state = PoolState.VotingPhase ∨
      ((cast_vote c now k pid).1.state = PoolState.ExecutionPhase ∧
        ∃ p, c.params = some p ∧ now > p.voting_deadline)) := by
  unfold cast_vote cast_vote_checks
  repeat' split
  all_goals simp_all

lemma execute_transfer_shape (c : Contract) (now : Int) (accts : List AccountInfo) :
    (execute_transfer c now accts).1.params = c.params ∧
    ((execute_transfer c now accts).1.state = c.state ∨
      (((execute_transfer c now accts).1.state = PoolState.ExecutionPhase ∨
        (execute_transfer c now accts).1.state = PoolState.Completed) ∧
        ∃ p, c.params = some p ∧
          (c.state = PoolState.ExecutionPhase ∨ now > p.voting_deadline))) := by
  unfold execute_transfer execute_transfer_checks
  repeat' split
  all_goals simp_all

/-- C1 (amended): the phase never moves backward under initialize_pool,
contribute or emergency_withdraw; under submit_proposal and cast_vote it
never moves backward provided the stored phase is not ExecutionPhase or
Completed; under execute_transfer provided it is not Completed. -/
theorem phase_forward_amended (c : Contract) (now : Int) (p : PoolParams)
    (k : Pubkey) (a : Nat) (pid : Nat) (ba d : ByteStr)
    (accts : List AccountInfo) :
    stateLe c.state (initialize_pool c p).1.state ∧
    stateLe c.state (contribute c now k a).1.state ∧
    stateLe c.state (emergency_withdraw c k).1.state ∧
    (c.state ≠ PoolState.ExecutionPhase → c.state ≠ PoolState.Completed →
      stateLe c.state (submit_proposal c now k ba d).1.state) ∧
    (c.state ≠ PoolState.ExecutionPhase → c.state ≠ PoolState.Completed →
      stateLe c.state (cast_vote c now k pid).1.state) ∧
    (c.state ≠ PoolState.Completed →
      stateLe c.state (execute_transfer c now accts).1.state) := by
  refine ⟨?_, ?_, ?_, ?_, ?_, ?_⟩
  · rcases initialize_pool_shape c p with ⟨h, _⟩ | ⟨h, hs⟩ <;> rw [h]
    · exact le_refl _
    · rw [hs]; decide
  · rcases contribute_shape c now k a with ⟨_, h | ⟨h, hs⟩⟩ <;> rw [h]
    · exact le_refl _
    · rw [hs]; decide
  · rw [(emergency_withdraw_shape c k).2]
    exact le_refl _
  · intro h1 h2
    rcases submit_proposal_shape c now k ba d with ⟨_, h | h | ⟨h, _⟩⟩ <;> rw [h]
    · exact le_refl _
    · cases hc : c.state <;> simp_all <;> decide
    · cases hc : c.state <;> simp_all <;> decide
  · intro h1 h2
    rcases cast_vote_shape c now k pid with ⟨_, h | h | ⟨h, _⟩⟩ <;> rw [h]
    · exact le_refl _
    · cases hc : c.state <;> simp_all <;> decide
    · cases hc : c.state <;> simp_all <;> decide
  · intro h1
    rcases execute_transfer_shape c now accts with ⟨_, h | ⟨h | h, _⟩⟩ <;> rw [h]
    · exact le_refl _
    · cases hc : c.state <;> simp_all <;> decide
    · cases hc : c.state <;> simp_all <;> decide

theorem phase_forward_amended_witness :
    stateLe cex1.state (initialize_pool cex1 params0).1.state ∧
    stateLe cex1.state (contribute cex1 50 keyA 10).1.state ∧
    stateLe cex1.state (emergency_withdraw cex1 keyA).1.state ∧
    stateLe cex1.state (submit_proposal cex1 50 keyA addr1 desc1).1.state ∧
    stateLe cex1.state (cast_vote cex1 50 keyA 1).1.state ∧
    stateLe cex1.state (execute_transfer cex1 50 [acct]).1.state := by
  obtain ⟨w1, w2, w3, w4, w5, w6⟩ :=
    phase_forward_amended cex1 50 params0 keyA 10 1 addr1 desc1 [acct]
  exact ⟨w1, w2, w3, w4 (by decide) (by decide), w5 (by decide) (by decide),
    w6 (by decide)⟩

/-- C1 (counterexample): along a monotone-clock reachable history the
pool reaches Completed, and a subsequent cast_vote at a later time moves
the phase backward to ExecutionPhase. -/
theorem phase_backward_counterexample :
    ReachableAt cex5 250 ∧ cex5.state = PoolState.Completed ∧
    (cast_vote cex5 250 keyB 1).1.state = PoolState.ExecutionPhase ∧
    ¬ stateLe cex5.state (cast_vote cex5 250 keyB 1).1.state := by
  have h0 : ReachableAt Contract.defaultState 50 := ReachableAt.base 50
  have h1 : ReachableAt cex1 50 := ReachableAt.initp params0 h0
  have h2 : ReachableAt cex2 50 := ReachableAt.contrib keyA 10 h1
  have h3 : ReachableAt cex2 150 := ReachableAt.tick 150 h2 (by omega)
  have h4 : ReachableAt cex3 150 := ReachableAt.subp keyA addr1 desc1 h3
  have h5 : ReachableAt cex4 150 := ReachableAt.vote keyA 1 h4
  have h6 : ReachableAt cex4 250 := ReachableAt.tick 250 h5 (by omega)
  have h7 : ReachableAt cex5 250 := ReachableAt.exec [acct] h6
  exact ⟨h7, by decide, by decide, by decide⟩

lemma getVal_modifyMap {α β : Type} [DecidableEq α]
    (m : List (α × β)) (k : α) (f : β → β) :
    getVal (modifyMap m k f) k = (getVal m k).map f := by
  induction m with
  | nil => rfl
  | cons kv t ih =>
    cases kv with
    | mk k1 v1 =>
      by_cases he : k1 = k
      · subst he
        simp [modifyMap, getVal]
      · simp [modifyMap, getVal, he, ih]

lemma cast_vote_ok {c : Contract} {now : Int} {v : Pubkey} {pid : Nat}
    (h : (cast_vote c now v pid).2 = Except.ok ()) :
    (cast_vote c now v pid).1.votes = insertMap c.votes v pid ∧
    (cast_vote c now v pid).1.proposals =
      modifyMap c.proposals pid (fun pr => { pr with votes := add64 pr.votes 1 }) ∧
    containsKey c.votes v = false := by
  unfold cast_vote cast_vote_checks at h ⊢
  repeat' split at h
  all_goals (repeat' split)
  all_goals (try simp_all)

lemma cast_vote_err_fields (c : Contract) (now : Int) (v : Pubkey) (pid : Nat) :
    (cast_vote c now v pid).1.contributions = c.contributions ∧
    ((cast_vote c now v pid).2 = Except.ok () ∨
      ((cast_vote c now v pid).1.proposals = c.proposals ∧
       (cast_vote c now v pid).1.votes = c.votes)) ∧
    (cast_vote c now v pid).1.total_balance = c.total_balance ∧
    (cast_vote c now v pid).1.next_proposal_id = c.next_proposal_id := by
  unfold cast_vote cast_vote_checks
  repeat' split
  all_goals simp_all

lemma cast_vote_already_eq {c : Contract} {p : PoolParams} {now : Int}
    {v : Pubkey} {pid : Nat} (hp : c.params = some p)
    (hgate : c.state = PoolState.VotingPhase ∨
      (now > p.contribution_deadline ∧ now ≤ p.voting_deadline))
    (hth : p.voting_threshold ≤ (getVal c.contributions v).getD 0)
    (hex : containsKey c.proposals pid = true)
    (hv : containsKey c.votes v = true) :
    (cast_vote c now v pid).2 = Except.error ContractError.AlreadyVoted := by
  unfold cast_vote cast_vote_checks
  by_cases hs : c.state = PoolState.VotingPhase
  · simp [hp, hs, hex, hv, Nat.not_lt.mpr hth]
  · rcases hgate with hg | ⟨hg1, hg2⟩
    · exact absurd hg hs
    · simp [hp, hs, hg1, hg2, hex, hv, Nat.not_lt.mpr hth]

/-- C7 (amended): a voter already present in the votes map can never vote
again and no field except possibly the phase is touched; the rejection is
AlreadyVoted exactly when the phase gate, the voting threshold and the
proposal-existence check (which precedes the double-vote check, so a
nonexistent proposal id yields ProposalNotFound instead) all pass; every
successful cast_vote records voter -> proposal_id and increments the
target proposal's count by exactly one, never weighted by pledge. -/
theorem cast_vote_double_vote (c : Contract) (p : PoolParams) (now : Int)
    (v : Pubkey) (pid : Nat) (hp : c.params = some p) :
    (containsKey c.votes v = true →
      (cast_vote c now v pid).2 ≠ Except.ok () ∧
      (cast_vote c now v pid).1.contributions = c.contributions ∧
      (cast_vote c now v pid).1.proposals = c.proposals ∧
      (cast_vote c now v pid).1.votes = c.votes ∧
      (cast_vote c now v pid).1.total_balance = c.total_balance ∧
      (cast_vote c now v pid).1.next_proposal_id = c.next_proposal_id ∧
      ((c.state = PoolState.VotingPhase ∨
        (now > p.contribution_deadline ∧ now ≤ p.voting_deadline)) →
        p.voting_threshold ≤ (getVal c.contributions v).getD 0 →
        containsKey c.proposals pid = true →
        (cast_vote c now v pid).2 = Except.error ContractError.AlreadyVoted)) ∧
    ((cast_vote c now v pid).2 = Except.ok () →
      (cast_vote c now v pid).1.votes = insertMap c.votes v pid ∧
      (cast_vote c now v pid).1.proposals =
        modifyMap c.proposals pid (fun pr => { pr with votes := add64 pr.votes 1 }) ∧
      ∀ pr, getVal c.proposals pid = some pr →
        getVal (cast_vote c now v pid).1.proposals pid =
          some { pr with votes := add64 pr.votes 1 }) := by
  constructor
  · intro hv
    have hnook : (cast_vote c now v pid).2 ≠ Except.ok () := by
      intro hok
      have := (cast_vote_ok hok).2.2
      rw [hv] at this
      exact absurd this (by decide)
    rcases cast_vote_err_fields c now v pid with ⟨h1, h2 | ⟨h3, h4⟩, h5, h6⟩
    · exact absurd h2 hnook
    · exact ⟨hnook, h1, h3, h4, h5, h6,
        fun hgate hth hex => cast_vote_already_eq hp hgate hth hex hv⟩
  · intro hok
    obtain ⟨hv, hpr, _⟩ := cast_vote_ok hok
    refine ⟨hv, hpr, fun pr hg => ?_⟩
    rw [hpr, getVal_modifyMap, hg]
    rfl

/-- C7 (counterexample): on a reachable initialized contract where keyA
has already voted, a second cast_vote by keyA naming the nonexistent
proposal id 999 is rejected with ProposalNotFound, not AlreadyVoted. -/
theorem cast_vote_double_vote_counterexample :
    cex4.params = some params0 ∧ containsKey cex4.votes keyA = true ∧
    (cast_vote cex4 150 keyA 999).2 = Except.error ContractError.ProposalNotFound ∧
    (cast_vote cex4 150 keyA 999).2 ≠ Except.error ContractError.AlreadyVoted := by
  refine ⟨by decide, by decide, by decide, by decide⟩

theorem cast_vote_double_vote_witness :
    (cast_vote cex4 150 keyA 1).2 = Except.error ContractError.AlreadyVoted :=
  (((cast_vote_double_vote cex4 params0 150 keyA 1 (by decide)).1 (by decide)).2.2.2.2.2.2)
    (Or.inl (by decide)) (by decide) (by decide)

lemma selectWinner_fold (l : List (Nat × Proposal)) :
    ∀ w0 m0 : Nat,
      (l.foldl (fun acc kp => if kp.2.votes > acc.2 then (kp.1, kp.2.votes) else acc)
          (w0, m0) = (w0, m0) ∧ ∀ e ∈ l, e.2.votes ≤ m0) ∨
      (∃ l1 pr l2,
        l = l1 ++
          ((l.foldl (fun acc kp => if kp.2.votes > acc.2 then (kp.1, kp.2.votes) else acc)
            (w0, m0)).1, pr) :: l2 ∧
        pr.votes =
          (l.foldl (fun acc kp => if kp.2.votes > acc.2 then (kp.1, kp.2.votes) else acc)
            (w0, m0)).2 ∧
        m0 < pr.votes ∧
        (∀ e ∈ l1, e.2.votes < pr.votes) ∧ (∀ e ∈ l2, e.2.votes ≤ pr.votes)) := by
  induction l with
  | nil =>
    intro w0 m0
    exact Or.inl ⟨rfl, by simp⟩
  | cons kq t ih =>
    obtain ⟨k, q⟩ := kq
    intro w0 m0
    rw [List.foldl_cons]
    by_cases hq : m0 < q.votes
    · rw [show (if (k, q).2.votes > (w0, m0).2 then ((k, q).1, (k, q).2.votes) else (w0, m0))
          = (k, q.votes) from by simp [hq]]
      rcases ih k q.votes with ⟨heq, hall⟩ | ⟨l1, pr, l2, hsplit, hvotes, hgt, hpre, hsuf⟩
      · rw [heq]
        exact Or.inr ⟨[], q, t, by simp, rfl, hq, by simp, hall⟩
      · refine Or.inr ⟨(k, q) :: l1, pr, l2, ?_, hvotes, lt_trans hq hgt, ?_, hsuf⟩
        · rw [List.cons_append, ← hsplit]
        · intro e he
          rcases List.mem_cons.mp he with rfl | he2
          · exact hgt
          · exact hpre e he2
    · rw [show (if (k, q).2.votes > (w0, m0).2 then ((k, q).1, (k, q).2.votes) else (w0, m0))
          = (w0, m0) from by simp [hq]]
      rcases ih w0 m0 with ⟨heq, hall⟩ | ⟨l1, pr, l2, hsplit, hvotes, hgt, hpre, hsuf⟩
      · refine Or.inl ⟨heq, ?_⟩
        intro e he
        rcases List.mem_cons.mp he with rfl | he2
        · exact Nat.not_lt.mp hq
        · exact hall e he2
      · refine Or.inr ⟨(k, q) :: l1, pr, l2, ?_, hvotes, hgt, ?_, hsuf⟩
        · rw [List.cons_append, ← hsplit]
        · intro e he
          rcases List.mem_cons.mp he with rfl | he2
          · exact lt_of_le_of_lt (Nat.not_lt.mp hq) hgt
          · exact hpre e he2

lemma execute_transfer_ok_params {c : Contract} {now : Int} {accts : List AccountInfo}
    (h : (execute_transfer c now accts).2 = Except.ok ()) :
    ∃ p, c.params = some p := by
  unfold execute_transfer at h
  split at h
  · simp at h
  · next p heq => exact ⟨p, heq⟩

lemma execute_transfer_ok_state {c : Contract} {now : Int} {accts : List AccountInfo}
    {p : PoolParams} (hp : c.params = some p)
    (h : (execute_transfer c now accts).2 = Except.ok ()) :
    (c.state = PoolState.ExecutionPhase ∨ now > p.voting_deadline) ∧
    c.transfer_executed = false ∧
    (execute_transfer c now accts).1.state = PoolState.Completed ∧
    (execute_transfer c now accts).1.transfer_executed = true ∧
    (execute_transfer c now accts).1.params = some p ∧
    (execute_transfer c now accts).1.winning_proposal =
      some (selectWinner c.proposals).1 ∧
    (selectWinner c.proposals).1 ≠ 0 := by
  unfold execute_transfer execute_transfer_checks at h ⊢
  simp only [hp] at h ⊢
  repeat' split at h
  all_goals (repeat' split)
  all_goals (try simp_all [not_le])

/-- C4: whenever execute_transfer succeeds, the recorded winning_proposal
is an entry of the proposals map whose vote count is maximal, namely the
first entry in iteration order whose vote count strictly exceeds every
previously seen count (ties later in the order never displace it). -/
theorem execute_transfer_winner (c : Contract) (now : Int)
    (accts : List AccountInfo)
    (hok : (execute_transfer c now accts).2 = Except.ok ()) :
    ∃ w pr l1 l2,
      (execute_transfer c now accts).1.winning_proposal = some w ∧
      c.proposals = l1 ++ (w, pr) :: l2 ∧
      (∀ e ∈ l1, e.2.votes < pr.votes) ∧
      (∀ e ∈ c.proposals, e.2.votes ≤ pr.votes) := by
  obtain ⟨p, hp⟩ := execute_transfer_ok_params hok
  obtain ⟨_, _, _, _, _, hwin, hnz⟩ := execute_transfer_ok_state hp hok
  rcases selectWinner_fold c.proposals 0 0 with ⟨heq, _⟩ |
    ⟨l1, pr, l2, hsplit, hvotes, hgt, hpre, hsuf⟩
  · have h0 : (selectWinner c.proposals).1 = 0 := by
      unfold selectWinner
      rw [heq]
    exact absurd h0 hnz
  · refine ⟨(selectWinner c.proposals).1, pr, l1, l2, hwin, hsplit, hpre, ?_⟩
    intro e he
    rw [hsplit] at he
    rcases List.mem_append.mp he with h1 | h2
    · exact le_of_lt (hpre e h1)
    · rcases List.mem_cons.mp h2 with rfl | h3
      · exact le_refl _
      · exact hsuf e h3

theorem execute_transfer_winner_witness :
    ∃ w pr l1 l2,
      (execute_transfer cex4 250 [acct]).1.winning_proposal = some w ∧
      cex4.proposals = l1 ++ (w, pr) :: l2 ∧
      (∀ e ∈ l1, e.2.votes < pr.votes) ∧
      (∀ e ∈ cex4.proposals, e.2.votes ≤ pr.votes) :=
  execute_transfer_winner cex4 250 [acct] (by decide)

/-- C5: with the gate passed (stored ExecutionPhase or past the voting
deadline), transfer not executed, proposals and votes non-empty and at
least one contributor, execute_transfer rejects with QuorumNotReached
exactly when voters / contributors < quorum_percentage / 100 as exact
rationals, which is what the correctly rounded f64 comparison computes. -/
theorem execute_transfer_quorum (c : Contract) (p : PoolParams) (now : Int)
    (accts : List AccountInfo) (hp : c.params = some p)
    (hgate : c.state = PoolState.ExecutionPhase ∨ now > p.voting_deadline)
    (hte : c.transfer_executed = false) (hprop : c.proposals ≠ [])
    (hv : c.votes ≠ []) (hc : c.contributions ≠ []) :
    (execute_transfer c now accts).2 = Except.error ContractError.QuorumNotReached ↔
      (c.votes.length : ℚ) / (c.contributions.length : ℚ) <
        (p.quorum_percentage : ℚ) / 100 := by
  have hpe : c.proposals.isEmpty = false := by
    cases hl : c.proposals
    · exact absurd hl hprop
    · rfl
  have hve : c.votes.isEmpty = false := by
    cases hl : c.votes
    · exact absurd hl hv
    · rfl
  have key : (execute_transfer c now accts).2 =
      Except.error ContractError.QuorumNotReached ↔
      c.votes.length * 100 < c.contributions.length * p.quorum_percentage := by
    unfold execute_transfer execute_transfer_checks
    simp only [hp]
    rw [if_neg (by rcases hgate with hg | hg
                   · simp [hg]
                   · intro hand
                     omega)]
    by_cases hs : c.state = PoolState.ExecutionPhase
    · rw [if_neg (by simp [hs])]
      simp only [hte, hpe, hve]
      by_cases hq : c.votes.length * 100 < c.contributions.length * p.quorum_percentage
      · simp [hq]
      · simp only [if_neg hq, if_neg, if_false]
        constructor
        · intro habs
          repeat' split at habs
          all_goals simp_all
        · intro habs
          exact absurd habs hq
    · rw [if_pos (by simp [hs])]
      simp only [hte, hpe, hve]
      by_cases hq : c.votes.length * 100 < c.contributions.length * p.quorum_percentage
      · simp [hq]
      · constructor
        · intro habs
          repeat' split at habs
          all_goals simp_all
        · intro habs
          exact absurd habs hq
  rw [key]
  have hc0 : 0 < (c.contributions.length : ℚ) := by
    have : 0 < c.contributions.length := List.length_pos.mpr hc
    exact_mod_cast this
  rw [div_lt_div_iff₀ hc0 (by norm_num : (0 : ℚ) < 100),
    mul_comm (p.quorum_percentage : ℚ) (c.contributions.length : ℚ)]
  exact_mod_cast Iff.rfl

theorem execute_transfer_quorum_witness :
    ((execute_transfer cex4 250 [acct]).2 =
        Except.error ContractError.QuorumNotReached ↔
      (cex4.votes.length : ℚ) / (cex4.contributions.length : ℚ) <
        (params0.quorum_percentage : ℚ) / 100) :=
  execute_transfer_quorum cex4 params0 250 [acct] (by decide)
    (Or.inr (by decide)) (by decide) (by decide) (by decide) (by decide)

lemma execute_transfer_already {c : Contract} {now : Int}
    (accts : List AccountInfo) {p : PoolParams} (hp : c.params = some p)
    (hs : c.state = PoolState.Completed) (ht : now > p.voting_deadline)
    (he : c.transfer_executed = true) :
    execute_transfer c now accts =
      ({ c with state := PoolState.ExecutionPhase },
       Except.error ContractError.TransferAlreadyExecuted) := by
  unfold execute_transfer execute_transfer_checks
  simp only [hp]
  rw [if_neg (by intro hand; omega)]
  rw [if_pos (by simp [hs])]
  simp [he]

/-- Along any reachable history, a pool whose stored phase is
ExecutionPhase or Completed can only have got there through a clock
reading past the voting deadline, so the current clock is past it too. -/
lemma reachable_exec_time {c : Contract} {t : Int} (h : ReachableAt c t) :
    ∀ p : PoolParams, c.params = some p →
      (c.state = PoolState.ExecutionPhase ∨ c.state = PoolState.Completed) →
      p.voting_deadline < t := by
  induction h with
  | base t =>
    intro p hp _
    simp [Contract.defaultState] at hp
  | tick t' h hle ih =>
    intro p hp hs
    exact lt_of_lt_of_le (ih p hp hs) hle
  | initp p0 h ih =>
    intro p hp hs
    rcases initialize_pool_shape _ p0 with ⟨h1, h2⟩ | ⟨h1, _⟩
    · rw [h2] at hp
      rw [h1] at hs
      exact ih p hp hs
    · rw [h1] at hs
      rcases hs with hs | hs <;> simp at hs
  | contrib k a h ih =>
    intro p hp hs
    obtain ⟨h1, h2⟩ := contribute_shape _ _ k a
    rw [h1] at hp
    rcases h2 with h2 | ⟨h2, _⟩
    · rw [h2] at hs
      exact ih p hp hs
    · rw [h2] at hs
      rcases hs with hs | hs <;> simp at hs
  | subp k ba d h ih =>
    intro p hp hs
    obtain ⟨h1, h2⟩ := submit_proposal_shape _ _ k ba d
    rw [h1] at hp
    rcases h2 with h2 | h2 | ⟨h2, p2, hp2, hvd⟩
    · rw [h2] at hs
      exact ih p hp hs
    · rw [h2] at hs
      rcases hs with hs | hs <;> simp at hs
    · rw [hp] at hp2
      injection hp2 with e
      subst e
      exact hvd
  | vote k pid h ih =>
    intro p hp hs
    obtain ⟨h1, h2⟩ := cast_vote_shape _ _ k pid
    rw [h1] at hp
    rcases h2 with h2 | h2 | ⟨h2, p2, hp2, hvd⟩
    · rw [h2] at hs
      exact ih p hp hs
    · rw [h2] at hs
      rcases hs with hs | hs <;> simp at hs
    · rw [hp] at hp2
      injection hp2 with e
      subst e
      exact hvd
  | exec accts h ih =>
    intro p hp hs
    obtain ⟨h1, h2⟩ := execute_transfer_shape _ _ accts
    rw [h1] at hp
    rcases h2 with h2 | ⟨_, p2, hp2, hdis⟩
    · rw [h2] at hs
      exact ih p hp hs
    · rw [hp] at hp2
      injection hp2 with e
      subst e
      rcases hdis with hstate | hvd
      · exact ih p hp (Or.inl hstate)
      · exact hvd
  | withdraw k h ih =>
    intro p hp hs
    obtain ⟨h1, h2⟩ := emergency_withdraw_shape _ k
    rw [h1] at hp
    rw [h2] at hs
    exact ih p hp hs

/-- C8: from any reachable state under a monotone clock, if a first
execute_transfer succeeds then an immediately following execute_transfer
always rejects with TransferAlreadyExecuted, and winning_proposal and
transfer_executed keep the values set by the first call. -/
theorem execute_transfer_twice (c : Contract) (t now1 now2 : Int)
    (accts1 accts2 : List AccountInfo)
    (hr : ReachableAt c t) (h1 : t ≤ now1) (h12 : now1 ≤ now2)
    (hok : (execute_transfer c now1 accts1).2 = Except.ok ()) :
    (execute_transfer (execute_transfer c now1 accts1).1 now2 accts2).2 =
      Except.error ContractError.TransferAlreadyExecuted ∧
    (execute_transfer (execute_transfer c now1 accts1).1 now2 accts2).1.winning_proposal =
      (execute_transfer c now1 accts1).1.winning_proposal ∧
    (execute_transfer (execute_transfer c now1 accts1).1 now2 accts2).1.transfer_executed =
      (execute_transfer c now1 accts1).1.transfer_executed := by
  obtain ⟨p, hp⟩ := execute_transfer_ok_params hok
  obtain ⟨hgate, hte, hcs, hct, hcp, hwin, hnz⟩ := execute_transfer_ok_state hp hok
  have hvd : p.voting_deadline < now2 := by
    rcases hgate with hg | hg
    · have := reachable_exec_time (ReachableAt.tick now1 hr h1) p hp (Or.inl hg)
      omega
    · omega
  have e2 := execute_transfer_already accts2 hcp hcs hvd hct
  rw [e2]
  exact ⟨rfl, rfl, rfl⟩

theorem execute_transfer_twice_witness :
    (execute_transfer (execute_transfer cex4 250 [acct]).1 250 [acct]).2 =
      Except.error ContractError.TransferAlreadyExecuted ∧
    (execute_transfer (execute_transfer cex4 250 [acct]).1 250 [acct]).1.winning_proposal =
      (execute_transfer cex4 250 [acct]).1.winning_proposal ∧
    (execute_transfer (execute_transfer cex4 250 [acct]).1 250 [acct]).1.transfer_executed =
      (execute_transfer cex4 250 [acct]).1.transfer_executed := by
  have h0 : ReachableAt Contract.defaultState 50 := ReachableAt.base 50
  have h1 : ReachableAt cex1 50 := ReachableAt.initp params0 h0
  have h2 : ReachableAt cex2 50 := ReachableAt.contrib keyA 10 h1
  have h3 : ReachableAt cex2 150 := ReachableAt.tick 150 h2 (by omega)
  have h4 : ReachableAt cex3 150 := ReachableAt.subp keyA addr1 desc1 h3
  have h5 : ReachableAt cex4 150 := ReachableAt.vote keyA 1 h4
  exact execute_transfer_twice cex4 150 250 250 [acct] [acct] h5 (by omega)
    (by omega) (by decide)

lemma natLE_length (w n : Nat) : (natLE w n).length = w := by
  induction w generalizing n with
  | zero => rfl
  | succ w ih => simp [natLE, ih]

lemma fromLE_natLE (w n : Nat) (h : n < 256 ^ w) : fromLE (natLE w n) = n := by
  induction w generalizing n with
  | zero =>
    interval_cases n
    rfl
  | succ w ih =>
    have hdiv : n / 256 < 256 ^ w := by
      rw [Nat.div_lt_iff_lt_mul (by norm_num)]
      calc n < 256 ^ (w + 1) := h
        _ = 256 ^ w * 256 := by ring
    simp only [natLE, fromLE, ih (n / 256) hdiv]
    omega

lemma readN_exact {w : Nat} {l r : List Nat} (h : l.length = w) :
    readN w (l ++ r) = some (l, r) := by
  subst h
  simp [readN, List.take_left, List.drop_left]

lemma dU8_enc {n : Nat} (h : n < 256) (r : List Nat) :
    dU8 (encU8 n ++ r) = some (n, r) := by
  simp [encU8, natLE, dU8, Nat.mod_eq_of_lt h]

lemma dFixed_enc {w n : Nat} (h : n < 256 ^ w) (r : List Nat) :
    dFixed w (natLE w n ++ r) = some (n, r) := by
  simp [dFixed, readN_exact (natLE_length w n), fromLE_natLE w n h]

lemma dU32_enc {n : Nat} (h : n < 2 ^ 32) (r : List Nat) :
    dU32 (encU32 n ++ r) = some (n, r) :=
  dFixed_enc (by norm_num at h ⊢; omega) r

lemma dU64_enc {n : Nat} (h : n < 2 ^ 64) (r : List Nat) :
    dU64 (encU64 n ++ r) = some (n, r) :=
  dFixed_enc (by norm_num at h ⊢; omega) r

lemma dI64_enc {x : Int} (h1 : -(2 ^ 63) ≤ x) (h2 : x < 2 ^ 63) (r : List Nat) :
    dI64 (encI64 x ++ r) = some (x, r) := by
  have hn : (x % (2 ^ 64 : Int)).toNat < 2 ^ 64 := by omega
  rw [encI64, dI64, dFixed_enc (by norm_num at hn ⊢; omega) r]
  simp only
  split
  · next hlt =>
    congr 1
    ext
    · omega
    · rfl
  · next hge =>
    congr 1
    ext
    · omega
    · rfl

lemma dBool_enc (b : Bool) (r : List Nat) :
    dBool (encBool b ++ r) = some (b, r) := by
  cases b <;> rfl

lemma dState_enc (s : PoolState) (r : List Nat) :
    dState (encState s ++ r) = some (s, r) := by
  cases s <;> rfl

lemma dPubkey_enc {k : Pubkey} (h : k.length = 32) (r : List Nat) :
    dPubkey (encPubkey k ++ r) = some (k, r) :=
  readN_exact h

lemma dStr_enc {s : ByteStr} (h : s.length < 2 ^ 32) (r : List Nat) :
    dStr (encStr s ++ r) = some (s, r) := by
  rw [encStr, List.append_assoc, dStr, dU32_enc h (s ++ r)]
  exact readN_exact rfl

lemma dOptionBy_enc {α : Type} {d : List Nat → Option (α × List Nat)}
    {enc : α → List Nat} {o : Option α}
    (hcomp : ∀ a, o = some a → ∀ r, d (enc a ++ r) = some (a, r)) (r : List Nat) :
    dOptionBy d (encOptionBy enc o ++ r) = some (o, r) := by
  cases o with
  | none => rfl
  | some a =>
    simp only [encOptionBy, List.cons_append, dOptionBy]
    rw [hcomp a rfl r]

lemma dPoolParams_enc {p : PoolParams} (h : WFparams p) (r : List Nat) :
    dPoolParams (encPoolParams p ++ r) = some (p, r) := by
  obtain ⟨h1, h2, h3, h4, h5, h6, h7, h8, h9⟩ := h
  have h9a : p.quorum_percentage < 256 := by
    norm_num at h9
    exact h9
  simp only [encPoolParams, List.append_assoc, dPoolParams,
    dU64_enc h1, dU64_enc h2, dI64_enc h3 h4, dI64_enc h5 h6,
    dU64_enc h7, dU64_enc h8, dU8_enc h9a]

lemma dProposal_enc {pr : Proposal} (h : WFproposal pr) (r : List Nat) :
    dProposal (encProposal pr ++ r) = some (pr, r) := by
  obtain ⟨h1, h2, h3, h4, h5⟩ := h
  simp only [encProposal, List.append_assoc, dProposal,
    dU64_enc h1, dPubkey_enc h2, dStr_enc h3, dStr_enc h4, dU64_enc h5]

lemma containsKey_append {α β : Type} [DecidableEq α]
    (a b : List (α × β)) (k : α) :
    containsKey (a ++ b) k = (containsKey a k || containsKey b k) := by
  induction a with
  | nil => simp [containsKey]
  | cons kv t ih =>
    cases kv with
    | mk k1 v1 =>
      by_cases he : k1 = k <;> simp [containsKey, he, ih]

lemma insertMap_append_of_not_mem {α β : Type} [DecidableEq α]
    {m : List (α × β)} {k : α} (v : β) (h : containsKey m k = false) :
    insertMap m k v = m ++ [(k, v)] := by
  induction m with
  | nil => rfl
  | cons kv t ih =>
    cases kv with
    | mk k1 v1 =>
      simp only [containsKey] at h
      by_cases he : k1 = k
      · rw [if_pos he] at h
        exact absurd h (by decide)
      · rw [if_neg he] at h
        simp [insertMap, he, ih h]

lemma foldl_insertMap {α β : Type} [DecidableEq α] (l : List (α × β)) :
    ∀ acc : List (α × β),
      (l.map Prod.fst).Nodup →
      (∀ k ∈ l.map Prod.fst, containsKey acc k = false) →
      l.foldl (fun m kv => insertMap m kv.1 kv.2) acc = acc ++ l := by
  induction l with
  | nil => simp
  | cons kv t ih =>
    intro acc hnd hdisj
    rw [List.foldl_cons,
      insertMap_append_of_not_mem kv.2 (hdisj kv.1 (by simp)),
      ih (acc ++ [kv]) (by simpa using hnd.of_cons) ?_, List.append_assoc]
    · simp
    · intro k hk
      rw [containsKey_append]
      have hne : kv.1 ≠ k := by
        simp only [List.map_cons, List.nodup_cons] at hnd
        intro e
        exact hnd.1 (e ▸ hk)
      simp [hdisj k (by simp [hk]), containsKey, hne]

lemma dPairsBy_enc {κ ν : Type} [DecidableEq κ]
    (dK : List Nat → Option (κ × List Nat)) (eK : κ → List Nat)
    (dV : List Nat → Option (ν × List Nat)) (eV : ν → List Nat)
    (l : List (κ × ν))
    (hK : ∀ kv ∈ l, ∀ r : List Nat, dK (eK kv.1 ++ r) = some (kv.1, r))
    (hV : ∀ kv ∈ l, ∀ r : List Nat, dV (eV kv.2 ++ r) = some (kv.2, r)) :
    ∀ (acc : List (κ × ν)) (r : List Nat),
      dPairsBy dK dV l.length (acc) ((encPairsBody eK eV l) ++ r) =
        some (l.foldl (fun m kv => insertMap m kv.1 kv.2) acc, r) := by
  induction l with
  | nil =>
    intro acc r
    rfl
  | cons kv t ih =>
    intro acc r
    simp only [List.length_cons, encPairsBody, List.append_assoc, dPairsBy]
    rw [hK kv (by simp) (eV kv.2 ++ (encPairsBody eK eV t ++ r))]
    simp only
    rw [hV kv (by simp) (encPairsBody eK eV t ++ r)]
    simp only
    rw [ih (fun e he r2 => hK e (by simp [he]) r2)
         (fun e he r2 => hV e (by simp [he]) r2)
         (insertMap acc kv.1 kv.2) r]
    rfl

lemma map_decode_generic {κ ν : Type} [DecidableEq κ]
    (dK : List Nat → Option (κ × List Nat)) (eK : κ → List Nat)
    (dV : List Nat → Option (ν × List Nat)) (eV : ν → List Nat)
    (l : List (κ × ν)) (hlen : l.length < 2 ^ 32)
    (hnd : (l.map Prod.fst).Nodup)
    (hK : ∀ kv ∈ l, ∀ r : List Nat, dK (eK kv.1 ++ r) = some (kv.1, r))
    (hV : ∀ kv ∈ l, ∀ r : List Nat, dV (eV kv.2 ++ r) = some (kv.2, r))
    (r : List Nat) :
    (match dU32 (encU32 l.length ++ (encPairsBody eK eV l ++ r)) with
      | none => none
      | some (n, r2) => dPairsBy dK dV n ([] : List (κ × ν)) r2) =
      some (l, r) := by
  rw [dU32_enc hlen]
  simp only
  rw [dPairsBy_enc dK eK dV eV l hK hV [] r,
    foldl_insertMap l [] hnd (fun k _ => rfl)]
  rfl

lemma deserialize_pubkey_map_enc {m : List (Pubkey × Nat)}
    (hlen : m.length < 2 ^ 32) (hnd : (m.map Prod.fst).Nodup)
    (hwf : ∀ kv ∈ m, kv.1.length = 32 ∧ kv.2 < 2 ^ 64) (r : List Nat) :
    deserialize_pubkey_map (serialize_pubkey_map m ++ r) = some (m, r) := by
  unfold deserialize_pubkey_map serialize_pubkey_map
  rw [List.append_assoc]
  exact map_decode_generic dPubkey encPubkey dU64 encU64 m hlen hnd
    (fun kv h r2 => dPubkey_enc (hwf kv h).1 r2)
    (fun kv h r2 => dU64_enc (hwf kv h).2 r2) r

lemma deserialize_proposal_map_enc {m : List (Nat × Proposal)}
    (hlen : m.length < 2 ^ 32) (hnd : (m.map Prod.fst).Nodup)
    (hwf : ∀ kv ∈ m, kv.1 < 2 ^ 64 ∧ WFproposal kv.2) (r : List Nat) :
    deserialize_proposal_map (serialize_proposal_map m ++ r) = some (m, r) := by
  unfold deserialize_proposal_map serialize_proposal_map
  rw [List.append_assoc]
  exact map_decode_generic dU64 encU64 dProposal encProposal m hlen hnd
    (fun kv h r2 => dU64_enc (hwf kv h).1 r2)
    (fun kv h r2 => dProposal_enc (hwf kv h).2 r2) r

lemma dContract_enc {c : Contract} (h : SerWF c) (r : List Nat) :
    dContract (encContract c ++ r) = some (c, r) := by
  obtain ⟨hpar, htb, hnp, hclen, hcwf, hcnd, hplen, hpwf, hpnd,
    hvlen, hvwf, hvnd, hwin⟩ := h
  have hparams : ∀ a, c.params = some a →
      ∀ r2 : List Nat, dPoolParams (encPoolParams a ++ r2) = some (a, r2) := by
    intro a ha r2
    rw [ha] at hpar
    exact dPoolParams_enc hpar r2
  have hwinp : ∀ a, c.winning_proposal = some a →
      ∀ r2 : List Nat, dU64 (encU64 a ++ r2) = some (a, r2) := by
    intro a ha r2
    rw [ha] at hwin
    exact dU64_enc hwin r2
  simp only [encContract, List.append_assoc, dContract,
    dState_enc, dOptionBy_enc hparams, dU64_enc htb,
    deserialize_pubkey_map_enc hclen hcnd hcwf,
    deserialize_proposal_map_enc hplen hpnd hpwf,
    deserialize_pubkey_map_enc hvlen hvnd hvwf,
    dU64_enc hnp, dOptionBy_enc hwinp, dBool_enc]

/-- C2: deserializing the serialization of any machine-representable
Contract aggregate (u64 and u32 fields in range, 32-byte identities,
HashMap keys unique, as every state held by the program is) returns the
aggregate exactly, consuming the whole buffer. -/
theorem contract_roundtrip (c : Contract) (h : SerWF c) :
    dContract (encContract c) = some (c, []) := by
  have := dContract_enc h []
  simpa using this

theorem contract_roundtrip_witness :
    dContract (encContract cex5) = some (cex5, []) :=
  contract_roundtrip cex5 (by decide)
